import Mathlib

/-!
Verification of the chapter-extraction / text-segmentation / resumable
synthesis-assembly pipeline of `lib/functions.py`.

Python text is modelled as `List Char`.  Machine integers are `Nat`/`Int`
(Python integers are unbounded, so no wrap-around modelling is needed);
Python float division on integer operands is modelled exactly in `ℚ`.
Fallible code paths (raised `DependencyError`, returned `False`) are
modelled with explicit result types.
-/

namespace EbookPipeline

/-- A `Sentence` of the pipeline: one bounded text chunk, as produced by
`get_sentences`. -/
abbrev Sentence := List Char

/-! ## Sentence segmenter (`get_sentences`, functions.py lines 509-556) -/

/-- Characters stripped by Python `str.strip()` (the whitespace characters
that can occur in the texts handled here). -/
def isPySpace (c : Char) : Bool :=
  c == ' ' || c == '\t' || c == '\n' || c == '\r' ||
  c == '\x0b' || c == '\x0c' || c == '\xa0'

/-- Python `s.strip()`: remove leading and trailing whitespace. -/
def pyStrip (s : List Char) : List Char :=
  ((s.dropWhile isPySpace).reverse.dropWhile isPySpace).reverse

/-- Python `re.sub(r"\.(\s|$)", r" .\n", sentence)` (line 512): every
period followed by a whitespace character (consumed) or by the end of the
string becomes the three characters `" .\n"`, scanning left to right. -/
def dotSub : List Char → List Char
  | [] => []
  | '.' :: [] => [' ', '.', '\n']
  | '.' :: c :: rest =>
      if isPySpace c then ' ' :: '.' :: '\n' :: dotSub rest
      else '.' :: dotSub (c :: rest)
  | c :: rest => c :: dotSub rest

/-- Python `s.replace(old, new)` for a single-character pattern `old`. -/
def pyReplaceChar (old : Char) (new : List Char) (s : List Char) : List Char :=
  s.foldr (fun c acc => (if c == old then new else [c]) ++ acc) []

/-- The `replacements` table of `get_sentences` (lines 513-528), applied
in dictionary (insertion) order. -/
def applyReplacements (s : List Char) : List Char :=
  pyReplaceChar '\xa0' [' '] <|
  pyReplaceChar ':' [' ', ':', ' '] <|
  pyReplaceChar '—' [' ', '-', ' '] <|
  pyReplaceChar '–' [' ', '-', ' '] <|
  pyReplaceChar '…' [' ', '.', '.', '.', ' '] <|
  pyReplaceChar '”' [' ', '"', ' '] <|
  pyReplaceChar '」' [' ', '"', ' '] <|
  pyReplaceChar '「' [' ', '"', ' '] <|
  pyReplaceChar '»' [' ', '"', ' '] <|
  pyReplaceChar '«' [' ', '"', ' '] <|
  pyReplaceChar '“' [' ', '"', ' '] <|
  pyReplaceChar '„' [' ', '"', ' '] s

/-- Python `sum(sentence.count(p) for p in punctuation)` (line 530). -/
def pauseTotal (punctuation : List Char) (s : List Char) : Nat :=
  (punctuation.map (fun p => s.count p)).sum

/-- Indices `i` of `s` whose character satisfies `p`, in increasing order
(the Python list comprehension `[i for i, char in enumerate(s) if ...]`). -/
def idxsWhere (p : Char → Bool) : List Char → List Nat
  | [] => []
  | c :: rest =>
      (if p c then [0] else []) ++ (idxsWhere p rest).map (· + 1)

/-- The comparison `char == ";\n"` of line 532: a single character
compared with the two-character Python string `";\n"`. -/
def pyCharEqSemiNl (c : Char) : Bool := ([c] : List Char) == [';', '\n']

/-- The punctuation-candidate computation of one iteration of the `while`
loop of `get_sentences` (lines 531-538): the three cascading candidate
lists over `sentence[:max_length]`. -/
def splitCandidates (maxLength : Nat) (punctuation : List Char) (s : List Char) : List Nat :=
  if (idxsWhere pyCharEqSemiNl (s.take maxLength)).isEmpty then
    if (idxsWhere (fun c => c == ',') (s.take maxLength)).isEmpty then
      idxsWhere (fun c => punctuation.contains c) (s.take maxLength)
    else idxsWhere (fun c => c == ',') (s.take maxLength)
  else idxsWhere pyCharEqSemiNl (s.take maxLength)

/-- The chosen split position of one iteration (lines 539-549): last
punctuation candidate + 1, else last space + 1, else `max_length`. -/
def pickSplitAt (maxLength : Nat) (punctuation : List Char) (s : List Char) : Nat :=
  match (splitCandidates maxLength punctuation s).getLast? with
  | some j => j + 1
  | none =>
      match (idxsWhere (fun c => c == ' ') (s.take maxLength)).getLast? with
      | some j => j + 1
      | none => maxLength





theorem pauseTotal_nil (punctuation : List Char) : pauseTotal punctuation [] = 0 := by
  simp [pauseTotal]

theorem length_dropWhile_le {p : Char → Bool} (l : List Char) :
    (l.dropWhile p).length ≤ l.length := by
  induction l with
  | nil => simp
  | cons a l ih =>
      by_cases h : p a
      · simp only [List.dropWhile_cons, h, if_true]
        simp
        omega
      · simp [List.dropWhile_cons, h]

theorem pyStrip_length_le (s : List Char) : (pyStrip s).length ≤ s.length := by
  unfold pyStrip
  have h1 := length_dropWhile_le (p := isPySpace) s
  have h2 := length_dropWhile_le (p := isPySpace) (s.dropWhile isPySpace).reverse
  simp only [List.length_reverse] at *
  omega

/-- One length-positivity fact needed for termination: if the `while`
condition of line 530 holds, the remaining text is non-empty. -/
theorem loopCond_length_pos {maxLength maxPauses : Nat} {punctuation s : List Char}
    (h : maxLength < s.length ∨ maxPauses < pauseTotal punctuation s) :
    0 < s.length := by
  rcases h with h | h
  · omega
  · by_contra hlen
    have : s = [] := by
      cases s with
      | nil => rfl
      | cons a l => simp at hlen
    rw [this, pauseTotal_nil] at h
    omega

/-- The `while` loop of `get_sentences` (lines 530-552).  The guard
`0 < sa` always holds when `max_length ≥ 1` (see `pickSplitAt`); for
`max_length = 0` Python's loop would never make progress, so the model
returns `[]` on that unreachable branch. -/
def sentenceLoop (maxLength : Nat) (punctuation : List Char) (maxPauses : Nat)
    (s : List Char) : List (List Char) :=
  if h : maxLength < s.length ∨ maxPauses < pauseTotal punctuation s then
    if h2 : 0 < pickSplitAt maxLength punctuation s then
      (pyStrip (s.take (pickSplitAt maxLength punctuation s)) ++ [' ']) ::
        sentenceLoop maxLength punctuation maxPauses
          (pyStrip (s.drop (pickSplitAt maxLength punctuation s)))
    else []
  else if s.isEmpty then [] else [pyStrip s ++ [' ']]
termination_by s.length
decreasing_by
  have hpos : 0 < s.length := loopCond_length_pos h
  have hd : (s.drop (pickSplitAt maxLength punctuation s)).length
      = s.length - pickSplitAt maxLength punctuation s := by simp
  have := pyStrip_length_le (s.drop (pickSplitAt maxLength punctuation s))
  omega

/-- Model of `get_sentences(sentence, language, max_pauses)`
(functions.py lines 509-556).  The per-language configuration
`language_mapping[language]['char_limit']` / `['punctuation']`
(`lib/lang.py`, not part of the sources) appears as the explicit
parameters `maxLength` and `punctuation`. -/
def get_sentences (sentence : List Char) (maxLength : Nat)
    (punctuation : List Char) (maxPauses : Nat) : List (List Char) :=
  sentenceLoop maxLength punctuation maxPauses (applyReplacements (dotSub sentence))

/-! ## Chapter extractor (`get_chapters`, `filter_doc`, `filter_pattern`,
functions.py lines 439-488) -/

/-- One structural document item of the parsed e-book.  `ident` is the
Python `str(doc)` identifier string; `body` is the sentence list that
`filter_chapter(doc, language)` reduces the item to (the HTML-to-text part
of `filter_chapter` runs through BeautifulSoup, an external collaborator,
so each item carries its reduced sentence list as data). -/
structure EpubDoc where
  ident : List Char
  body : List (List Char)
deriving DecidableEq, Repr

/-- Python `s.split(sep)` for a single separator character. -/
def pySplitOn (sep : Char) (s : List Char) : List (List Char) :=
  s.foldr
    (fun c acc =>
      match acc with
      | [] => [[c]]
      | cur :: rest => if c == sep then [] :: cur :: rest else (c :: cur) :: rest)
    [[]]

/-- Model of `filter_pattern(doc_identifier)` (lines 478-488). -/
def filter_pattern (doc_identifier : List Char) : Option (List Char) :=
  let parts := pySplitOn ':' doc_identifier
  if parts.length > 2 then
    let segment := parts.getD 1 []
    if segment.any Char.isAlpha && segment.any Char.isDigit then
      some (segment.filter Char.isAlpha)
    else if !segment.isEmpty && segment.all Char.isAlpha then
      some segment
    else if !segment.isEmpty && segment.all Char.isDigit then
      some ['n', 'u', 'm', 'b', 'e', 'r', 's']
    else none
  else none

/-- The distinct patterns of a list in first-occurrence order (the key
order of a Python `Counter` built from the list). -/
def firstOccurrences (ps : List (List Char)) : List (List Char) :=
  ps.foldl (fun acc p => if acc.contains p then acc else acc ++ [p]) []

/-- Model of `filter_doc(doc_patterns)` (lines 472-476):
`Counter(doc_patterns).most_common(1)` — the pattern with the highest
count, ties resolved in favour of the earliest first occurrence
(`most_common` sorts stably by count over insertion order). -/
def filter_doc (doc_patterns : List (List Char)) : Option (List Char) :=
  match firstOccurrences doc_patterns with
  | [] => none
  | p :: ps =>
      some (ps.foldl
        (fun best q =>
          if doc_patterns.count best < doc_patterns.count q then q else best) p)

/-- Outcome of `get_chapters`: a raised `DependencyError`, the returned
`False`, or a returned chapter list (possibly empty). -/
inductive ChaptersResult where
  | raised : ChaptersResult
  | falseResult : ChaptersResult
  | chapters : List (List (List Char)) → ChaptersResult
deriving DecidableEq, Repr

/-- Whether a `ChaptersResult` is the exception outcome. -/
def ChaptersResult.isRaised : ChaptersResult → Bool
  | .raised => true
  | _ => false

/-- The introductory attribution sentence
`f"{creator}\n\n{title}\n\n"` (line 466). -/
def introSentence (creator title : List Char) : List Char :=
  creator ++ ['\n', '\n'] ++ title ++ ['\n', '\n']

/-- Model of `get_chapters(epubBook, session)` (lines 439-470).
`docs` is the ordered item list `epubBook.get_items_of_type(ITEM_DOCUMENT)`;
`creator` is `session['metadata'].get('creator')` when truthy.  The
`chapters[0].insert(0, intro)` of line 467 raises `IndexError` (surfaced
as `DependencyError`) when `chapters` is empty. -/
def get_chapters (cancellationRequested : Bool) (docs : List EpubDoc)
    (creator : Option (List Char)) (title : List Char) : ChaptersResult :=
  if cancellationRequested then .falseResult
  else if docs.isEmpty then .falseResult
  else
    let all_docs := docs.tail
    let doc_patterns := all_docs.filterMap (fun d => filter_pattern d.ident)
    let most_common_pattern := filter_doc doc_patterns
    let selected_docs :=
      all_docs.filter (fun d => filter_pattern d.ident == most_common_pattern)
    let char_lengths := selected_docs.map (fun d => d.body.length)
    let average_char_length : ℚ :=
      if char_lengths.isEmpty then 0
      else (char_lengths.sum : ℚ) / (char_lengths.length : ℚ)
    let final_selected_docs :=
      all_docs.filter (fun d =>
        decide ((d.body.length : ℚ) ≥ average_char_length)
          || (filter_pattern d.ident == most_common_pattern))
    let chapters := final_selected_docs.map (fun d => d.body)
    match creator with
    | some c =>
        match chapters with
        | [] => .raised
        | ch0 :: rest => .chapters ((introSentence c title :: ch0) :: rest)
    | none => .chapters chapters

/-- The most frequent fingerprint among the candidate units, in the
claim's vocabulary (candidates are the units after the leading one). -/
def mostCommonOf (rest : List EpubDoc) : Option (List Char) :=
  filter_doc (rest.filterMap (fun d => filter_pattern d.ident))

/-- The average text length over the candidate units matching the most
frequent fingerprint, in the claim's vocabulary. -/
def avgOf (rest : List EpubDoc) : ℚ :=
  let lens := (rest.filter
      (fun d => filter_pattern d.ident == mostCommonOf rest)).map
      (fun d => d.body.length)
  if lens.isEmpty then 0 else (lens.sum : ℚ) / (lens.length : ℚ)

/-- Selection rule exactly as the claim words it: fingerprint equals the
most frequent fingerprint OR text length at least the average over the
matching units. -/
def claimSelect (rest : List EpubDoc) : List EpubDoc :=
  rest.filter (fun d =>
    (filter_pattern d.ident == mostCommonOf rest)
      || decide ((d.body.length : ℚ) ≥ avgOf rest))

/-- The leading document of the item list, dropped by `get_chapters`
before any processing (line 448). -/
def dummyDoc : EpubDoc := ⟨"<EpubHtml:front:cover.xhtml>".toList, List.replicate 3 []⟩

/-- Candidate unit with fingerprint `chap` and text length 500. -/
def docA1 : EpubDoc := ⟨"<EpubHtml:chap1:c1.xhtml>".toList, List.replicate 500 []⟩

/-- Candidate unit with fingerprint `chap` and text length 500. -/
def docA2 : EpubDoc := ⟨"<EpubHtml:chap2:c2.xhtml>".toList, List.replicate 500 []⟩

/-- Candidate unit with fingerprint `chap` and text length 500. -/
def docA3 : EpubDoc := ⟨"<EpubHtml:chap3:c3.xhtml>".toList, List.replicate 500 []⟩

/-- Candidate unit with the outlier fingerprint `intro` and text
length 10. -/
def docB : EpubDoc := ⟨"<EpubHtml:intro:b.xhtml>".toList, List.replicate 10 []⟩

/-! ## Audio assembler (`combine_audio_sentences`, functions.py lines
822-848, and the chapter-file ordering of `combine_audio_chapters`,
lines 852-854 and 995-997) -/

/-- Numeric value of a digit character. -/
def charDigitVal (c : Char) : Nat := c.toNat - '0'.toNat

/-- Decimal value of a digit string (how Python `int` reads it). -/
def digitsToNat (ds : List Char) : Nat :=
  ds.foldl (fun a c => 10 * a + charDigitVal c) 0

/-- First maximal digit run of a string: `re.search(r'\d+', s)`. -/
def firstDigitRun : List Char → Option (List Char)
  | [] => none
  | c :: rest =>
      if c.isDigit then some (c :: rest.takeWhile Char.isDigit)
      else firstDigitRun rest

/-- `int(re.search(r'\d+', s).group())` when a digit run exists. -/
def searchNumber (s : List Char) : Option Nat :=
  (firstDigitRun s).map digitsToNat

/-- All digit characters of a string: `''.join(filter(str.isdigit, s))`. -/
def digitsOf (s : List Char) : List Char := s.filter Char.isDigit

/-- `int(''.join(filter(str.isdigit, s)))` — `none` models the
`ValueError` raised on an empty digit string. -/
def allDigitsNumber (s : List Char) : Option Nat :=
  if (digitsOf s).isEmpty then none else some (digitsToNat (digitsOf s))

/-- Python `f.endswith(".wav")`. -/
def endsWithWav (s : List Char) : Bool :=
  ['.', 'w', 'a', 'v'].isSuffixOf s

/-- Model of `combine_audio_sentences(chapter_audio_file, start, end,
session)` (lines 822-848).  `files` is the sentence-directory listing;
`start`/`endIdx` are Python ints (the orchestrator passes
`current_sentence - 1` as end, which can be `-1`).  The result is the
ordered list of fragment files whose audio is concatenated into the
chapter file; `none` models the failure outcomes (a raised
`DependencyError` from an undigited filename, or the `False` returned on
cancellation).  The export succeeds for whatever files are selected — the
function performs no gap or completeness check on `[start, end]`. -/
def combine_audio_sentences (files : List (List Char)) (start endIdx : Int)
    (cancellationRequested : Bool) : Option (List (List Char)) :=
  let sentence_files := files.filter endsWithWav
  -- `sorted(..., key=int(re.search(r'\d+', x).group()))` and
  -- `int(''.join(filter(str.isdigit, basename(f))))` both raise unless
  -- every listed .wav filename contains a digit
  if sentence_files.all (fun f => !(digitsOf f).isEmpty) then
    -- Python `sorted` is a stable sort by the numeric key; a stable
    -- insertion sort produces the identical ordering
    let sentences_dir_ordered := sentence_files.insertionSort
      (fun a b => ((searchNumber a).getD 0) ≤ ((searchNumber b).getD 0))
    let selected_files := sentences_dir_ordered.filter
      (fun f => decide (start ≤ (((allDigitsNumber f).getD 0 : Nat) : Int))
        && decide ((((allDigitsNumber f).getD 0 : Nat) : Int) ≤ endIdx))
    if cancellationRequested && !selected_files.isEmpty then none
    else some selected_files
  else none

/-- The `sort_key` of `combine_audio_chapters` (lines 852-854): first
number in the filename, `0` when there is none. -/
def chapterSortKey (f : List Char) : Nat := (searchNumber f).getD 0

/-- The chapter-file ordering of `combine_audio_chapters` (lines
995-997): the `.wav` listing of the chapter directory sorted by
`sort_key`.  The assembled book concatenates the files in exactly this
order (the batching of `assemble_audio` preserves it). -/
def combine_audio_chapters_order (files : List (List Char)) : List (List Char) :=
  (files.filter endsWithWav).insertionSort
    (fun a b => chapterSortKey a ≤ chapterSortKey b)

/-! ## Synthesis orchestrator (`convert_chapters_to_audio`,
`convert_sentence_to_audio`, functions.py lines 644-820, and the status
reporting of `convert_ebook`, lines 1230-1271) -/

/-- The on-disk and progress state threaded through one orchestrator run.
`frags` is the set of fragment indices `i` with a file
`chapters/sentences/{i}.wav`; `chaps` the chapter numbers `n` with a file
`chapters/chapter_{n}.wav`; `reports` the progress fractions pushed to
the progress bar, in order; `synthCount` the number of completed
synthesis calls (the clock against which cooperative cancellation is
observed). -/
structure OrchState where
  frags : List Nat
  chaps : List Nat
  reports : List ℚ
  synthCount : Nat
deriving DecidableEq, Repr

/-- Cooperative cancellation: the flag `session['cancellation_requested']`
is off for the first `k` synthesis steps and on from step `k` onwards
(`none` = never set).  Checked at step boundaries only. -/
def cancelActive (cancelAt : Option Nat) (n : Nat) : Bool :=
  match cancelAt with
  | none => false
  | some k => decide (k ≤ n)

/-- The inner sentence loop of `convert_chapters_to_audio` (lines
737-750) over one chapter's sentences.  Returns
`(ok, current_sentence, state)`; `ok = false` models the `return False`
taken when `convert_sentence_to_audio` observes the cancellation flag
(lines 765-768).  On success the fragment is persisted at
`{current_sentence}.wav` and `current_sentence / total_sentences` is
reported (lines 739-747); `current_sentence` increments for every
sentence, synthesized or skipped (line 750). -/
def orchSentLoop (cancelAt : Option Nat) (resumeSentence totalSentences : Nat) :
    List Sentence → Nat → OrchState → Bool × Nat × OrchState
  | [], cur, st => (true, cur, st)
  | _ :: rest, cur, st =>
      if resumeSentence ≤ cur then
        if cancelActive cancelAt st.synthCount then (false, cur, st)
        else
          orchSentLoop cancelAt resumeSentence totalSentences rest (cur + 1)
            { st with
              frags := st.frags ++ [cur],
              reports := st.reports ++ [(cur : ℚ) / (totalSentences : ℚ)],
              synthCount := st.synthCount + 1 }
      else orchSentLoop cancelAt resumeSentence totalSentences rest (cur + 1) st

/-- The per-chapter `combine_audio_sentences` call as seen by the
orchestrator: the fragment files with index in `[start, end]` are
concatenated into `chapter_{chapterNum}.wav` (overwriting it if present).
`none` models the `False` returned when the cancellation flag is observed
inside the file loop (lines 834-841) — observed only when at least one
file is selected, since the check sits inside the loop body. -/
def orchCombine (cancelAt : Option Nat) (chapterNum : Nat) (start endIdx : Int)
    (st : OrchState) : Option OrchState :=
  let selected := st.frags.filter
    (fun (i : Nat) => decide (start ≤ (i : Int)) && decide ((i : Int) ≤ endIdx))
  if !selected.isEmpty && cancelActive cancelAt st.synthCount then none
  else some { st with
    chaps := if st.chaps.contains chapterNum then st.chaps
             else st.chaps ++ [chapterNum] }

/-- The chapter loop of `convert_chapters_to_audio` (lines 730-758),
running over `session['chapters'][x]` for `x` from `resume_chapter`.
`start` is marked before the sentences, `end = current_sentence - 1`
after them, and the combine step runs only when
`start >= resume_sentence` (lines 735, 751-758). -/
def orchChapLoop (cancelAt : Option Nat) (resumeSentence totalSentences : Nat) :
    List (List Sentence) → Nat → Nat → OrchState → Bool × Nat × OrchState
  | [], _, cur, st => (true, cur, st)
  | sentences :: rest, x, cur, st =>
      match orchSentLoop cancelAt resumeSentence totalSentences sentences cur st with
      | (false, cur2, st2) => (false, cur2, st2)
      | (true, cur2, st2) =>
          if resumeSentence ≤ cur then
            match orchCombine cancelAt (x + 1) (cur : Int) ((cur2 : Int) - 1) st2 with
            | none => (false, cur2, st2)
            | some st3 =>
                orchChapLoop cancelAt resumeSentence totalSentences rest (x + 1) cur2 st3
          else orchChapLoop cancelAt resumeSentence totalSentences rest (x + 1) cur2 st2

/-- Model of `convert_chapters_to_audio(session)` (lines 644-759).
The resume scan (lines 709-722) sets `resume_chapter` to
`count_chapter_files - 1` and `resume_sentence` to the count of existing
fragment files; the sentence counter `current_sentence` then starts at 0
(line 726) even when `resume_chapter > 0`.  Returns the Python `return`
value and the final on-disk/progress state. -/
def convert_chapters_to_audio (cancelAt : Option Nat)
    (chapters : List (List Sentence)) (st0 : OrchState) : Bool × OrchState :=
  if cancelActive cancelAt st0.synthCount then (false, st0)
  else
    let resumeChapter := if st0.chaps.length > 0 then st0.chaps.length - 1 else 0
    let resumeSentence := st0.frags.length
    let totalSentences := (chapters.map List.length).sum
    match orchChapLoop cancelAt resumeSentence totalSentences
        (chapters.drop resumeChapter) resumeChapter 0 st0 with
    | (ok, _, st) => (ok, st)

/-- Job outcome as reported by `convert_ebook` (lines 1230-1271): the
produced-file success return, an error-message return, or the `Cancelled`
return that overrides any error message when the cancellation flag is set
(lines 1268-1271). -/
inductive JobStatus where
  | completed : JobStatus
  | failed : List Char → JobStatus
  | cancelled : JobStatus
deriving DecidableEq, Repr

/-- The `convert_chapters_to_audio` / status-reporting slice of
`convert_ebook` (lines 1233-1271): on orchestrator failure the error is
`'convert_chapters_to_audio() failed!'`, overridden to `Cancelled` when
the cancellation flag is set; on orchestrator success the assembly steps
of `combine_audio_chapters` run (each aborting if the flag is set, again
reported as `Cancelled`), else the job completes.  No cleanup path
deletes fragment or chapter files except after a successfully produced
final file (lines 1235-1249). -/
def convert_ebook_run (cancelAt : Option Nat) (chapters : List (List Sentence))
    (st0 : OrchState) : JobStatus × OrchState :=
  match convert_chapters_to_audio cancelAt chapters st0 with
  | (true, st) =>
      if cancelActive cancelAt st.synthCount then (.cancelled, st)
      else (.completed, st)
  | (false, st) =>
      if cancelActive cancelAt st.synthCount then (.cancelled, st)
      else (.failed ("convert_chapters_to_audio() failed!".toList), st)

/-! ## Theorems -/

set_option maxRecDepth 10000


theorem idxsWhere_mem_lt {p : Char → Bool} {l : List Char} {j : Nat}
    (h : j ∈ idxsWhere p l) : j < l.length := by
  induction l generalizing j with
  | nil => simp [idxsWhere] at h
  | cons c rest ih =>
      simp only [idxsWhere, List.mem_append, List.mem_map] at h
      rcases h with h | ⟨i, hi, rfl⟩
      · rcases Bool.eq_false_or_eq_true (p c) with hp | hp <;> simp [hp] at h
        subst h; simp
      · have := ih hi
        simp; omega


theorem mem_of_getLast?_eq_some {α : Type} {l : List α} {a : α}
    (h : l.getLast? = some a) : a ∈ l := by
  have ha : a ∈ l.getLast? := h
  obtain ⟨hne, rfl⟩ := List.mem_getLast?_eq_getLast ha
  exact List.getLast_mem hne


theorem splitCandidates_mem_lt {maxLength : Nat} {punctuation s : List Char} {j : Nat}
    (h : j ∈ splitCandidates maxLength punctuation s) :
    j < (s.take maxLength).length := by
  unfold splitCandidates at h
  split at h
  · split at h
    · exact idxsWhere_mem_lt h
    · exact idxsWhere_mem_lt h
  · exact idxsWhere_mem_lt h


theorem pickSplitAt_le (maxLength : Nat) (punctuation : List Char) (s : List Char) :
    pickSplitAt maxLength punctuation s ≤ maxLength := by
  have hwin : (s.take maxLength).length ≤ maxLength := by
    simp [List.length_take]
  unfold pickSplitAt
  cases h3 : (splitCandidates maxLength punctuation s).getLast? with
  | some j =>
      have hj := splitCandidates_mem_lt (mem_of_getLast?_eq_some h3)
      show j + 1 ≤ maxLength
      omega
  | none =>
      cases hsp : (idxsWhere (fun c => c == ' ') (s.take maxLength)).getLast? with
      | some j =>
          have hj := idxsWhere_mem_lt (mem_of_getLast?_eq_some hsp)
          show j + 1 ≤ maxLength
          omega
      | none => exact le_refl maxLength

theorem sentenceLoop_length_le (maxLength : Nat) (punctuation : List Char) (maxPauses : Nat)
    (s : List Char) :
    ∀ p ∈ sentenceLoop maxLength punctuation maxPauses s, p.length ≤ maxLength + 1 := by
  induction s using sentenceLoop.induct maxLength punctuation maxPauses with
  | case1 s h h2 ih =>
      intro p hp
      rw [sentenceLoop, dif_pos h, dif_pos h2] at hp
      rcases List.mem_cons.mp hp with rfl | hp
      · have h1 := pyStrip_length_le (s.take (pickSplitAt maxLength punctuation s))
        have h2' : (s.take (pickSplitAt maxLength punctuation s)).length
            ≤ pickSplitAt maxLength punctuation s := by simp
        have h3 := pickSplitAt_le maxLength punctuation s
        simp only [List.length_append, List.length_cons, List.length_nil]
        omega
      · exact ih p hp
  | case2 s h h2 =>
      intro p hp
      rw [sentenceLoop, dif_pos h, dif_neg h2] at hp
      simp at hp
  | case3 s h he =>
      intro p hp
      rw [sentenceLoop, dif_neg h] at hp
      simp [he] at hp
  | case4 s h he =>
      intro p hp
      rw [sentenceLoop, dif_neg h] at hp
      have hlen : s.length ≤ maxLength := by
        rcases Nat.lt_or_ge maxLength s.length with hh | hh
        · exact absurd (Or.inl hh) h
        · exact hh
      simp [he] at hp
      subst hp
      have := pyStrip_length_le s
      simp only [List.length_append, List.length_cons, List.length_nil]
      omega

/-- C2, counterexample.  On input `"ab,cd"` with `max_length = 3`,
pause punctuation `[',']` and `max_pauses = 0`, the first returned
sentence is `"ab, "`: its length is 4 > 3 = `max_length` and it contains
1 > 0 = `max_pauses` pause characters, even though a valid split point
(the comma) existed in the chunk — refuting both bounds of the claim. -/
theorem C2_counterexample :
    get_sentences "ab,cd".toList 3 [','] 0 = [['a', 'b', ',', ' '], ['c', 'd', ' ']]
    ∧ ¬((['a', 'b', ',', ' '] : List Char).length ≤ 3)
    ∧ ¬(pauseTotal [','] ['a', 'b', ',', ' '] ≤ 0)
    ∧ splitCandidates 3 [','] (applyReplacements (dotSub "ab,cd".toList)) ≠ [] := by
  refine ⟨?_, by decide, by decide, by decide⟩
  simp [get_sentences, sentenceLoop, pickSplitAt, splitCandidates, idxsWhere, pyStrip,
    applyReplacements, dotSub, pyReplaceChar, pauseTotal, pyCharEqSemiNl, isPySpace]

/-- C2, amended.  Every sentence returned by `get_sentences` has length
at most `max_length + 1` (each emitted chunk is the stripped prefix of at
most `max_length` characters plus one appended trailing space).  The
claimed bounds fail: the length bound can be exceeded by exactly one (the
appended space), and the pause-count bound does not hold at all, because
the loop splits at the last pause in the window and so keeps every pause
inside the emitted chunk (see `C2_counterexample`). -/
theorem C2_sentence_length_bound (sentence : List Char) (maxLength : Nat)
    (punctuation : List Char) (maxPauses : Nat) :
    (get_sentences sentence maxLength punctuation maxPauses).all
      (fun p => decide (p.length ≤ maxLength + 1)) = true := by
  simp only [List.all_eq_true, decide_eq_true_eq]
  intro p hp
  exact sentenceLoop_length_le maxLength punctuation maxPauses _ p hp

theorem pyCharEqSemiNl_false (c : Char) : pyCharEqSemiNl c = false := by
  rw [pyCharEqSemiNl, beq_eq_false_iff_ne]
  intro h
  simp at h

theorem idxsWhere_semiNl_nil (l : List Char) : idxsWhere pyCharEqSemiNl l = [] := by
  induction l with
  | nil => rfl
  | cons c rest ih => simp [idxsWhere, pyCharEqSemiNl_false, ih]

/-- C5.  The first split-point search of `get_sentences` (line 532,
commented "Look for the last period") compares each character with the
two-character string `";\n"` and therefore never finds a candidate: its
candidate list is empty for every input.  Consequently the split-point
priority starts at the comma, never at sentence-terminal punctuation: on
`"Hi. abc, de"` (`max_length = 20`, punctuation `[',']`,
`max_pauses = 0`) the text is cut after the comma, keeping the period
marker `" .\n"` inside the first chunk, instead of being cut at the
period as the claimed priority requires. -/
theorem C5_step1_dead_code :
    (∀ l : List Char, idxsWhere pyCharEqSemiNl l = [])
    ∧ get_sentences "Hi. abc, de".toList 20 [','] 0
        = ["Hi .\nabc, ".toList, "de ".toList] := by
  refine ⟨idxsWhere_semiNl_nil, ?_⟩
  simp [get_sentences, sentenceLoop, pickSplitAt, splitCandidates, idxsWhere, pyStrip,
    applyReplacements, dotSub, pyReplaceChar, pauseTotal, pyCharEqSemiNl, isPySpace]

theorem get_chapters_eq_claimSelect (d0 : EpubDoc) (rest : List EpubDoc) (title : List Char) :
    get_chapters false (d0 :: rest) none title
      = .chapters ((claimSelect rest).map (fun d => d.body)) := by
  simp only [get_chapters, claimSelect, mostCommonOf, avgOf, Bool.false_eq_true, if_false,
    List.isEmpty_cons, List.tail_cons]
  congr 1
  congr 1
  apply List.filter_congr
  intro d _
  exact Bool.or_comm _ _


/-- C3.  The chapter selection rule: for every document list, the
extractor keeps exactly the candidate units (the units after the dropped
leading one) whose fingerprint equals the most frequent fingerprint or
whose text length is at least the average over the units matching that
fingerprint (`claimSelect`); and on candidates with fingerprints
`[chap, chap, chap, intro]` and text lengths `[500, 500, 500, 10]`
exactly the three `chap` units are selected. -/
theorem C3_selection_rule :
    (∀ (d0 : EpubDoc) (rest : List EpubDoc) (title : List Char),
      get_chapters false (d0 :: rest) none title
        = .chapters ((claimSelect rest).map (fun d => d.body)))
    ∧ get_chapters false [dummyDoc, docA1, docA2, docA3, docB] none []
        = .chapters [docA1.body, docA2.body, docA3.body] := by
  refine ⟨get_chapters_eq_claimSelect, ?_⟩
  rw [show ([dummyDoc, docA1, docA2, docA3, docB] : List EpubDoc)
      = dummyDoc :: [docA1, docA2, docA3, docB] from rfl,
    get_chapters_eq_claimSelect]
  have hmc : mostCommonOf [docA1, docA2, docA3, docB] = some "chap".toList := by decide
  have hfilter : ([docA1, docA2, docA3, docB].filter
      (fun d => filter_pattern d.ident == mostCommonOf [docA1, docA2, docA3, docB]))
      = [docA1, docA2, docA3] := by decide
  have havg : avgOf [docA1, docA2, docA3, docB] = 500 := by
    unfold avgOf
    rw [hfilter]
    rw [show ([docA1, docA2, docA3].map (fun d => (d.body.length : ℚ))) = [500, 500, 500] from by
      simp only [List.map_cons, List.map_nil, docA1, docA2, docA3, List.length_replicate]
      norm_num]
    norm_num [List.isEmpty]
  have e1 : ((filter_pattern docA1.ident == mostCommonOf [docA1, docA2, docA3, docB])
      || decide ((docA1.body.length : ℚ) ≥ avgOf [docA1, docA2, docA3, docB])) = true := by
    rw [hmc, show (filter_pattern docA1.ident == some "chap".toList) = true from by decide]
    exact Bool.true_or _
  have e2 : ((filter_pattern docA2.ident == mostCommonOf [docA1, docA2, docA3, docB])
      || decide ((docA2.body.length : ℚ) ≥ avgOf [docA1, docA2, docA3, docB])) = true := by
    rw [hmc, show (filter_pattern docA2.ident == some "chap".toList) = true from by decide]
    exact Bool.true_or _
  have e3 : ((filter_pattern docA3.ident == mostCommonOf [docA1, docA2, docA3, docB])
      || decide ((docA3.body.length : ℚ) ≥ avgOf [docA1, docA2, docA3, docB])) = true := by
    rw [hmc, show (filter_pattern docA3.ident == some "chap".toList) = true from by decide]
    exact Bool.true_or _
  have e4 : ((filter_pattern docB.ident == mostCommonOf [docA1, docA2, docA3, docB])
      || decide ((docB.body.length : ℚ) ≥ avgOf [docA1, docA2, docA3, docB])) = false := by
    rw [hmc, havg, show (filter_pattern docB.ident == some "chap".toList) = false from by decide,
      Bool.false_or]
    apply decide_eq_false
    simp only [docB, List.length_replicate]
    norm_num
  have hsel : claimSelect [docA1, docA2, docA3, docB] = [docA1, docA2, docA3] := by
    simp only [claimSelect, List.filter_cons, List.filter_nil, e1, e2, e3, e4]
    simp
  rw [hsel]
  rfl

/-- C9, counterexample.  With a single content unit and a creator
attribution in the metadata, no unit survives the filter (the only unit
is the dropped leading one), `chapters` is empty, and
`chapters[0].insert(0, intro)` raises `IndexError` — surfaced as a
raised `DependencyError`, not an empty-result return. -/
theorem C9_counterexample :
    get_chapters false [⟨"x".toList, []⟩] (some "A".toList) "T".toList
      = .raised := by decide

/-- C9, amended.  The extractor returns the explicit empty-result signal
(`False`) when there are no content units, regardless of creator
attribution; and it never raises when no creator attribution is present.
When a creator is present and no unit survives the filter, however, it
raises instead of returning an empty result (see `C9_counterexample`). -/
theorem C9_empty_result_signal :
    (∀ (cancel : Bool) (creator : Option (List Char)) (title : List Char),
      get_chapters cancel [] creator title = .falseResult)
    ∧ (∀ (cancel : Bool) (docs : List EpubDoc) (title : List Char),
      (get_chapters cancel docs none title).isRaised = false) := by
  constructor
  · intro cancel creator title
    cases cancel <;> simp [get_chapters]
  · intro cancel docs title
    cases cancel
    · cases docs <;> simp [get_chapters, ChaptersResult.isRaised]
    · simp [get_chapters, ChaptersResult.isRaised]

/-- C10.  The extractor unconditionally discards the first content unit
before fingerprinting, averaging and selection (`all_docs = all_docs[1:]`,
line 448): the result of `get_chapters` does not depend on the first unit
at all, whatever its fingerprint or text length, so the first unit can
never contribute a produced chapter. -/
theorem C10_first_unit_discarded (cancel : Bool) (d d2 : EpubDoc)
    (rest : List EpubDoc) (creator : Option (List Char)) (title : List Char) :
    get_chapters cancel (d :: rest) creator title
      = get_chapters cancel (d2 :: rest) creator title := rfl

/-- C4, counterexample.  With fragment files `0.wav` and `2.wav` and the
requested range `[0, 2]`, index 1 has no file, yet
`combine_audio_sentences` succeeds and silently produces the chapter from
the two present files — it does not abort on the gap. -/
theorem C4_counterexample :
    combine_audio_sentences ["0.wav".toList, "2.wav".toList] 0 2 false
      = some ["0.wav".toList, "2.wav".toList] := by decide

/-- C4, amended.  `combine_audio_sentences` performs no completeness
check on the index range: whenever every listed `.wav` filename contains
a digit (so no parsing exception occurs) and no cancellation is
requested, the combine step succeeds, concatenating exactly the present
files whose digit-index lies in `[start, end]` and silently skipping any
missing index. -/
theorem C4_no_gap_check (files : List (List Char)) (start endIdx : Int)
    (h : (files.filter endsWithWav).all (fun f => !(digitsOf f).isEmpty) = true) :
    (combine_audio_sentences files start endIdx false).isSome = true := by
  simp only [combine_audio_sentences, h, if_true, Bool.false_and, Bool.false_eq_true, if_false,
    Option.isSome_some]

theorem C4_no_gap_check_witness :
    ((["0.wav".toList, "2.wav".toList] : List (List Char)).filter endsWithWav).all
      (fun f => !(digitsOf f).isEmpty) = true
    ∧ (combine_audio_sentences ["0.wav".toList, "2.wav".toList] 0 2 false).isSome = true :=
  ⟨by decide, C4_no_gap_check ["0.wav".toList, "2.wav".toList] 0 2 (by decide)⟩

/-- C7.  Fragments selected by `combine_audio_sentences` are concatenated
in increasing numeric index order, and chapter files are concatenated by
`combine_audio_chapters` in increasing order of the number embedded in
the filename; in particular `chapter_2.wav`, `chapter_10.wav`,
`chapter_1.wav` are combined in the order 1, 2, 10, not in lexicographic
order. -/
theorem C7_numeric_order :
    (∀ (files : List (List Char)) (start endIdx : Int),
      ((combine_audio_sentences files start endIdx false).getD []).Pairwise
        (fun a b => (searchNumber a).getD 0 ≤ (searchNumber b).getD 0))
    ∧ (∀ files : List (List Char),
      (combine_audio_chapters_order files).Pairwise
        (fun a b => chapterSortKey a ≤ chapterSortKey b))
    ∧ combine_audio_chapters_order
        ["chapter_2.wav".toList, "chapter_10.wav".toList, "chapter_1.wav".toList]
      = ["chapter_1.wav".toList, "chapter_2.wav".toList, "chapter_10.wav".toList] := by
  refine ⟨?_, ?_, by decide⟩
  · intro files start endIdx
    by_cases h : (files.filter endsWithWav).all (fun f => !(digitsOf f).isEmpty) = true
    · simp only [combine_audio_sentences, h, if_true, Bool.false_and, Bool.false_eq_true,
        if_false, Option.getD_some]
      apply List.Pairwise.filter
      haveI : IsTotal (List Char) (fun a b => (searchNumber a).getD 0 ≤ (searchNumber b).getD 0) :=
        ⟨fun a b => Nat.le_total _ _⟩
      haveI : IsTrans (List Char) (fun a b => (searchNumber a).getD 0 ≤ (searchNumber b).getD 0) :=
        ⟨fun _ _ _ hab hbc => Nat.le_trans hab hbc⟩
      exact List.sorted_insertionSort
        (r := fun a b : List Char => (searchNumber a).getD 0 ≤ (searchNumber b).getD 0)
        (List.filter endsWithWav files)
    · simp only [combine_audio_sentences, Bool.not_eq_true] at h ⊢
      simp [h]
  · intro files
    haveI : IsTotal (List Char) (fun a b => chapterSortKey a ≤ chapterSortKey b) :=
      ⟨fun a b => Nat.le_total _ _⟩
    haveI : IsTrans (List Char) (fun a b => chapterSortKey a ≤ chapterSortKey b) :=
      ⟨fun _ _ _ hab hbc => Nat.le_trans hab hbc⟩
    exact List.sorted_insertionSort (r := fun a b => chapterSortKey a ≤ chapterSortKey b) _

theorem orchSentLoop_none (S : Nat) (sentences : List Sentence) :
    ∀ (cur : Nat) (st : OrchState),
    orchSentLoop none 0 S sentences cur st
      = (true, cur + sentences.length,
         ⟨st.frags ++ List.range' cur sentences.length, st.chaps,
          st.reports ++ (List.range' cur sentences.length).map
            (fun k : Nat => (k : ℚ) / (S : ℚ)),
          st.synthCount + sentences.length⟩) := by
  induction sentences with
  | nil =>
      intro cur st
      simp [orchSentLoop, List.range']
  | cons s rest ih =>
      intro cur st
      simp only [orchSentLoop, Nat.zero_le, if_true, cancelActive, Bool.false_eq_true, if_false]
      rw [ih (cur + 1)]
      have h1 : cur + 1 + rest.length = cur + (rest.length + 1) := by omega
      have h2 : st.synthCount + 1 + rest.length = st.synthCount + (rest.length + 1) := by omega
      rw [List.length_cons, List.range'_succ]
      simp [h1, h2, List.append_assoc]

theorem orchChapLoop_none (S : Nat) (chs : List (List Sentence)) :
    ∀ (x cur : Nat) (st : OrchState), ∃ c : List Nat,
    orchChapLoop none 0 S chs x cur st
      = (true, cur + (chs.map List.length).sum,
         ⟨st.frags ++ List.range' cur ((chs.map List.length).sum), c,
          st.reports ++ (List.range' cur ((chs.map List.length).sum)).map
            (fun k : Nat => (k : ℚ) / (S : ℚ)),
          st.synthCount + (chs.map List.length).sum⟩) := by
  induction chs with
  | nil =>
      intro x cur st
      exact ⟨st.chaps, by simp [orchChapLoop, List.range']⟩
  | cons sents rest ih =>
      intro x cur st
      simp only [orchChapLoop]
      rw [orchSentLoop_none]
      simp only [Nat.zero_le, if_true, orchCombine, cancelActive, Bool.and_false,
        Bool.false_eq_true, if_false]
      obtain ⟨c, hc⟩ := ih (x + 1) (cur + sents.length)
        ⟨st.frags ++ List.range' cur sents.length,
         (if (⟨st.frags ++ List.range' cur sents.length, st.chaps,
            st.reports ++ (List.range' cur sents.length).map
              (fun k : Nat => (k : ℚ) / (S : ℚ)),
            st.synthCount + sents.length⟩ : OrchState).chaps.contains (x + 1) then st.chaps
          else st.chaps ++ [x + 1]),
         st.reports ++ (List.range' cur sents.length).map (fun k : Nat => (k : ℚ) / (S : ℚ)),
         st.synthCount + sents.length⟩
      refine ⟨c, ?_⟩
      rw [hc]
      dsimp only
      have hr : List.range' cur sents.length ++ List.range' (cur + sents.length)
          ((rest.map List.length).sum)
          = List.range' cur (sents.length + (rest.map List.length).sum) := by
        have := List.range'_append cur sents.length ((rest.map List.length).sum) 1
        simpa [Nat.add_comm] using this
      have e1 : cur + sents.length + (rest.map List.length).sum
          = cur + (sents.length + (rest.map List.length).sum) := by omega
      have e2 : st.synthCount + sents.length + (rest.map List.length).sum
          = st.synthCount + (sents.length + (rest.map List.length).sum) := by omega
      simp only [List.map_cons, List.sum_cons, e1, e2, List.append_assoc, ← List.map_append, hr]

/-- C6, amended.  For a fresh, uncancelled run, the progress fractions
reported after each synthesized sentence are exactly
`0/S, 1/S, ..., (S-1)/S` with `S` the total sentence count — the value
reported after completing sentence `k` is `k / total_sentences` (the
counter before its increment), chapter finalization reports nothing, and
the denominator is `total_sentences`, not
`total_sentences + total_chapters`.  The sequence is strictly
increasing. -/
theorem C6_progress_formula (chapters : List (List Sentence)) :
    (convert_chapters_to_audio none chapters ⟨[], [], [], 0⟩).2.reports
      = (List.range ((chapters.map List.length).sum)).map
          (fun k : Nat => (k : ℚ) / (((chapters.map List.length).sum : Nat) : ℚ))
    ∧ ((convert_chapters_to_audio none chapters ⟨[], [], [], 0⟩).2.reports).Pairwise (· < ·) := by
  have hrun : (convert_chapters_to_audio none chapters ⟨[], [], [], 0⟩).2.reports
      = (List.range ((chapters.map List.length).sum)).map
          (fun k : Nat => (k : ℚ) / (((chapters.map List.length).sum : Nat) : ℚ)) := by
    simp only [convert_chapters_to_audio, cancelActive, Bool.false_eq_true, if_false,
      List.length_nil, gt_iff_lt, Nat.lt_irrefl, List.drop_zero]
    obtain ⟨c, hc⟩ := orchChapLoop_none ((chapters.map List.length).sum) chapters 0 0
      ⟨[], [], [], 0⟩
    rw [hc]
    simp [List.range_eq_range']
  refine ⟨hrun, ?_⟩
  rw [hrun]
  rcases Nat.eq_zero_or_pos ((chapters.map List.length).sum) with hS | hS
  · simp [hS]
  · rw [List.pairwise_map]
    apply (List.pairwise_lt_range _).imp
    intro a b hab
    have hSq : (0 : ℚ) < (((chapters.map List.length).sum : Nat) : ℚ) := by
      exact_mod_cast hS
    exact div_lt_div_of_pos_right (by exact_mod_cast hab) hSq

theorem orchSentLoop_cancel (k S : Nat) (sentences : List Sentence) :
    ∀ (cur : Nat) (st : OrchState),
    st.synthCount = cur → st.frags = List.range cur → cur ≤ k →
    (cur + sentences.length ≤ k →
      ∃ st2 : OrchState, orchSentLoop (some k) 0 S sentences cur st
        = (true, cur + sentences.length, st2)
        ∧ st2.synthCount = cur + sentences.length
        ∧ st2.frags = List.range (cur + sentences.length)
        ∧ st2.chaps = st.chaps)
    ∧ (k < cur + sentences.length →
      ∃ st2 : OrchState, orchSentLoop (some k) 0 S sentences cur st
        = (false, k, st2)
        ∧ st2.synthCount = k ∧ st2.frags = List.range k ∧ st2.chaps = st.chaps) := by
  induction sentences with
  | nil =>
      intro cur st hsc hfr hck
      constructor
      · intro _
        exact ⟨st, by simp [orchSentLoop], by simpa, by simpa, rfl⟩
      · intro hlt
        simp at hlt
        omega
  | cons s rest ih =>
      intro cur st hsc hfr hck
      rcases Nat.lt_or_ge cur k with hcur | hcur
      · -- flag still off: the sentence is synthesized
        have hflag : cancelActive (some k) st.synthCount = false := by
          simp [cancelActive, hsc]
          omega
        have hnext := ih (cur + 1)
          ⟨st.frags ++ [cur], st.chaps,
           st.reports ++ [(cur : ℚ) / (S : ℚ)], st.synthCount + 1⟩
          (by simp [hsc]) (by simp [hfr, List.range_succ]) (by omega)
        have ha : cur + 1 + rest.length = cur + (rest.length + 1) := by omega
        constructor
        · intro hle
          simp only [List.length_cons] at hle ⊢
          obtain ⟨st2, he, h1, h2, h3⟩ := hnext.1 (by omega)
          rw [ha] at he h1 h2
          refine ⟨st2, ?_, h1, h2, h3⟩
          simp only [orchSentLoop, Nat.zero_le, if_true, hflag, Bool.false_eq_true, if_false]
          rw [he]
        · intro hlt
          simp only [List.length_cons] at hlt ⊢
          obtain ⟨st2, he, h1, h2, h3⟩ := hnext.2 (by omega)
          refine ⟨st2, ?_, h1, h2, h3⟩
          simp only [orchSentLoop, Nat.zero_le, if_true, hflag, Bool.false_eq_true, if_false]
          exact he
      · -- cur = k: the flag is observed before synthesizing
        have hek : cur = k := by omega
        have hflag : cancelActive (some k) st.synthCount = true := by
          simp [cancelActive, hsc]
          omega
        constructor
        · intro hle
          simp at hle
          omega
        · intro _
          refine ⟨st, ?_, by omega, by rw [hfr, hek], rfl⟩
          simp only [orchSentLoop, Nat.zero_le, if_true, hflag, if_true]
          rw [hek]

theorem selected_nonempty_of_lt (cur k : Nat) (h : cur < k) :
    ((List.range k).filter
      (fun (i : Nat) => decide ((cur : Int) ≤ (i : Int)) && decide ((i : Int) ≤ (k : Int) - 1))).isEmpty
      = false := by
  have hmem : cur ∈ (List.range k).filter
      (fun (i : Nat) => decide ((cur : Int) ≤ (i : Int)) && decide ((i : Int) ≤ (k : Int) - 1)) := by
    refine List.mem_filter.mpr ⟨List.mem_range.mpr h, ?_⟩
    simp
    omega
  cases he : ((List.range k).filter
      (fun (i : Nat) => decide ((cur : Int) ≤ (i : Int)) && decide ((i : Int) ≤ (k : Int) - 1))) with
  | nil => rw [he] at hmem; simp at hmem
  | cons a l => rfl

theorem selected_empty_at_k (k : Nat) :
    ((List.range k).filter
      (fun (i : Nat) => decide ((k : Int) ≤ (i : Int)) && decide ((i : Int) ≤ (k : Int) - 1))).isEmpty
      = true := by
  have : ((List.range k).filter
      (fun (i : Nat) => decide ((k : Int) ≤ (i : Int)) && decide ((i : Int) ≤ (k : Int) - 1))) = [] := by
    apply List.filter_eq_nil_iff.mpr
    intro i hi
    have := List.mem_range.mp hi
    simp
    omega
  rw [this]
  rfl

theorem orchCombine_some_of_flag_off (cancelAt : Option Nat) (x : Nat)
    (start endIdx : Int) (st : OrchState)
    (hflag : cancelActive cancelAt st.synthCount = false) :
    orchCombine cancelAt x start endIdx st
      = some { st with chaps := if st.chaps.contains x then st.chaps
                                else st.chaps ++ [x] } := by
  simp [orchCombine, hflag]

theorem orchCombine_some_of_sel_empty (cancelAt : Option Nat) (x : Nat)
    (start endIdx : Int) (st : OrchState)
    (hsel : (st.frags.filter
      (fun (i : Nat) => decide (start ≤ (i : Int)) && decide ((i : Int) ≤ endIdx))).isEmpty = true) :
    orchCombine cancelAt x start endIdx st
      = some { st with chaps := if st.chaps.contains x then st.chaps
                                else st.chaps ++ [x] } := by
  simp only [orchCombine, hsel, Bool.not_true, Bool.false_and, Bool.false_eq_true, if_false]

theorem orchCombine_none_of (cancelAt : Option Nat) (x : Nat)
    (start endIdx : Int) (st : OrchState)
    (hsel : (st.frags.filter
      (fun (i : Nat) => decide (start ≤ (i : Int)) && decide ((i : Int) ≤ endIdx))).isEmpty = false)
    (hflag : cancelActive cancelAt st.synthCount = true) :
    orchCombine cancelAt x start endIdx st = none := by
  simp only [orchCombine, hsel, hflag, Bool.not_false, Bool.true_and, if_true]

theorem orchChapLoop_cancel (k S : Nat) (chs : List (List Sentence)) :
    ∀ (x cur : Nat) (st : OrchState),
    st.synthCount = cur → st.frags = List.range cur → cur ≤ k →
    k < cur + (chs.map List.length).sum →
    ∃ (cur2 : Nat) (st2 : OrchState),
      orchChapLoop (some k) 0 S chs x cur st = (false, cur2, st2)
      ∧ st2.frags = List.range k ∧ st2.synthCount = k := by
  induction chs with
  | nil =>
      intro x cur st hsc hfr hck habs
      simp at habs
      omega
  | cons sents rest ih =>
      intro x cur st hsc hfr hck htot
      simp only [List.map_cons, List.sum_cons] at htot
      have hsl := orchSentLoop_cancel k S sents cur st hsc hfr hck
      rcases Nat.lt_or_ge k (cur + sents.length) with hover | hunder
      · -- cancellation strikes inside this chapter's sentences
        obtain ⟨st2, he, h1, h2, h3⟩ := hsl.2 hover
        refine ⟨k, st2, ?_, h2, h1⟩
        simp only [orchChapLoop]
        rw [he]
      · -- the chapter's sentences all complete
        obtain ⟨st2, he, h1, h2, h3⟩ := hsl.1 hunder
        rcases Nat.lt_or_ge (cur + sents.length) k with hlt | hge
        · -- flag still off at the combine step: combine succeeds, recurse
          have hflag : cancelActive (some k) st2.synthCount = false := by
            simp [cancelActive, h1]
            omega
          have hcomb := orchCombine_some_of_flag_off (some k) (x + 1) (cur : Int)
            (((cur + sents.length : Nat) : Int) - 1) st2 hflag
          have hnext := ih (x + 1) (cur + sents.length)
            { st2 with chaps := if st2.chaps.contains (x + 1) then st2.chaps
                                else st2.chaps ++ [x + 1] }
            (by simpa using h1) (by simpa using h2) (by omega) (by omega)
          obtain ⟨cur2, st4, heq, hf4, hs4⟩ := hnext
          refine ⟨cur2, st4, ?_, hf4, hs4⟩
          simp only [orchChapLoop]
          rw [he]
          simp only [Nat.zero_le, if_true]
          rw [hcomb]
          exact heq
        · -- the flag goes up exactly at this chapter boundary
          have hk : cur + sents.length = k := by omega
          have hflag : cancelActive (some k) st2.synthCount = true := by
            simp [cancelActive, h1, hk]
          rcases Nat.lt_or_ge cur k with hcv | hcv
          · -- at least one fragment selected: the combine observes the flag
            have hsel : (st2.frags.filter
                (fun (i : Nat) => decide ((cur : Int) ≤ (i : Int))
                  && decide ((i : Int) ≤ ((cur + sents.length : Nat) : Int) - 1))).isEmpty
                = false := by
              rw [h2, hk]
              exact selected_nonempty_of_lt cur k hcv
            have hcomb := orchCombine_none_of (some k) (x + 1) (cur : Int)
              (((cur + sents.length : Nat) : Int) - 1) st2 hsel hflag
            refine ⟨cur + sents.length, st2, ?_, by rw [h2, hk], by rw [h1, hk]⟩
            simp only [orchChapLoop]
            rw [he]
            simp only [Nat.zero_le, if_true]
            rw [hcomb]
          · -- cur = k and the chapter is empty: nothing selected, continue
            have hcur : cur = k := by omega
            have hL : sents.length = 0 := by omega
            have hsel : (st2.frags.filter
                (fun (i : Nat) => decide ((cur : Int) ≤ (i : Int))
                  && decide ((i : Int) ≤ ((cur + sents.length : Nat) : Int) - 1))).isEmpty
                = true := by
              rw [h2, hk, hcur]
              exact selected_empty_at_k k
            have hcomb := orchCombine_some_of_sel_empty (some k) (x + 1) (cur : Int)
              (((cur + sents.length : Nat) : Int) - 1) st2 hsel
            have hnext := ih (x + 1) (cur + sents.length)
              { st2 with chaps := if st2.chaps.contains (x + 1) then st2.chaps
                                  else st2.chaps ++ [x + 1] }
              (by simpa using h1) (by simpa using h2) (by omega) (by omega)
            obtain ⟨cur2, st4, heq, hf4, hs4⟩ := hnext
            refine ⟨cur2, st4, ?_, hf4, hs4⟩
            simp only [orchChapLoop]
            rw [he]
            simp only [Nat.zero_le, if_true]
            rw [hcomb]
            exact heq

/-- C8.  For every fresh job whose cancellation flag goes up after `k`
completed synthesis steps with `k` below the total sentence count, the
pipeline stops at the next step boundary: the job reports the status
`Cancelled` — a constructor distinct from `failed` and from `completed` —
and the fragment files on disk are exactly the `k` fragments written
before the flag was observed (none are deleted or modified). -/
theorem C8_cancellation (chapters : List (List Sentence)) (k : Nat)
    (hk : k < (chapters.map List.length).sum) :
    (convert_ebook_run (some k) chapters ⟨[], [], [], 0⟩).1 = JobStatus.cancelled
    ∧ (convert_ebook_run (some k) chapters ⟨[], [], [], 0⟩).2.frags = List.range k
    ∧ (∀ msg, JobStatus.cancelled ≠ JobStatus.failed msg)
    ∧ JobStatus.cancelled ≠ JobStatus.completed := by
  have hdist1 : ∀ msg, JobStatus.cancelled ≠ JobStatus.failed msg := by
    intro msg h
    exact JobStatus.noConfusion h
  have hdist2 : JobStatus.cancelled ≠ JobStatus.completed := by
    intro h
    exact JobStatus.noConfusion h
  rcases Nat.eq_zero_or_pos k with hk0 | hkpos
  · subst hk0
    have hflag0 : cancelActive (some 0) (0 : Nat) = true := by simp [cancelActive]
    have hrun : convert_chapters_to_audio (some 0) chapters ⟨[], [], [], 0⟩
        = (false, ⟨[], [], [], 0⟩) := by
      simp [convert_chapters_to_audio, cancelActive]
    refine ⟨?_, ?_, hdist1, hdist2⟩ <;>
      simp [convert_ebook_run, hrun, cancelActive]
  · have hflag0 : cancelActive (some k) ((⟨[], [], [], 0⟩ : OrchState).synthCount) = false := by
      simp [cancelActive]
      omega
    obtain ⟨cur2, st2, heq, hf2, hs2⟩ := orchChapLoop_cancel k ((chapters.map List.length).sum)
      chapters 0 0 ⟨[], [], [], 0⟩ rfl rfl (by omega) (by simpa using hk)
    have hrun : convert_chapters_to_audio (some k) chapters ⟨[], [], [], 0⟩
        = (false, st2) := by
      simp only [convert_chapters_to_audio, hflag0, Bool.false_eq_true, if_false,
        List.length_nil, gt_iff_lt, Nat.lt_irrefl, List.drop_zero]
      rw [heq]
    have hflagEnd : cancelActive (some k) st2.synthCount = true := by
      simp [cancelActive, hs2]
    refine ⟨?_, ?_, hdist1, hdist2⟩
    · simp [convert_ebook_run, hrun, hflagEnd]
    · simp [convert_ebook_run, hrun, hflagEnd, hf2]

theorem C8_cancellation_witness :
    1 < (([[['a'], ['b']], [['c']]] : List (List Sentence)).map List.length).sum
    ∧ ((convert_ebook_run (some 1) [[['a'], ['b']], [['c']]] ⟨[], [], [], 0⟩).1
        = JobStatus.cancelled
      ∧ (convert_ebook_run (some 1) [[['a'], ['b']], [['c']]] ⟨[], [], [], 0⟩).2.frags
        = List.range 1
      ∧ (∀ msg, JobStatus.cancelled ≠ JobStatus.failed msg)
      ∧ JobStatus.cancelled ≠ JobStatus.completed) :=
  ⟨by decide, C8_cancellation [[['a'], ['b']], [['c']]] 1 (by decide)⟩

/-- C1.  Resume evaluation for the book `[[a], [b]]` (two chapters of
one sentence each).  A complete fresh run writes fragments 0 and 1 and
chapter files 1 and 2.  Deleting the last fragment (index 1) and
re-running — fragment directory `[0]`, chapter directory `[1, 2]` — the
orchestrator computes `resume_chapter = 1` and `resume_sentence = 1` but
restarts its sentence counter at 0, so the guard
`current_sentence >= resume_sentence` skips every sentence of the
re-run chapter and the combine step: nothing is regenerated, refuting
the claimed regenerate-exactly-the-deleted-fragments behaviour. -/
theorem C1_rerun_regenerates_nothing :
    (convert_chapters_to_audio none [[['a']], [['b']]] ⟨[], [], [], 0⟩)
      = (true, ⟨[0, 1], [1, 2], [0, (1 : ℚ) / 2], 2⟩)
    ∧ (convert_chapters_to_audio none [[['a']], [['b']]] ⟨[0], [1, 2], [], 0⟩)
      = (true, ⟨[0], [1, 2], [], 0⟩) := by
  constructor <;>
    norm_num [convert_chapters_to_audio, orchChapLoop, orchSentLoop, orchCombine, cancelActive]

/-- C6, counterexample.  For two chapters of one sentence each
(`total_sentences = 2`, `total_chapters = 2`) the claim predicts the
report sequence `[1/4, 2/4, 3/4, 4/4]`; the code reports `[0, 1/2]`:
the fraction uses `current_sentence` before its increment over
`total_sentences` alone, and chapter finalizations report nothing. -/
theorem C6_counterexample :
    (convert_chapters_to_audio none [[['a']], [['b']]] ⟨[], [], [], 0⟩).2.reports
      = [0, (1 : ℚ) / 2]
    ∧ ([0, (1 : ℚ) / 2] : List ℚ) ≠ [(1 : ℚ) / 4, 2 / 4, 3 / 4, 4 / 4] := by
  constructor
  · norm_num [convert_chapters_to_audio, orchChapLoop, orchSentLoop, orchCombine, cancelActive]
  · intro h
    have := List.head_eq_of_cons_eq h
    norm_num at this

end EbookPipeline
